import Mathlib

/-!
Verification of the ordered-list position manager of the soundmap-bot
repository.

The development shallowly embeds the database wrapper `src/core/db.py`
and the list-maintenance operations of `src/cogs/profile.py`
(`ProfileCog`).  A SQLite connection is modelled as a `Conn`: the
committed table contents, the current (possibly uncommitted) contents,
the `in_transaction` flag, a failure-injection schedule for simulating
store failures, and a trace of the raw statements executed.  Database
computations are functions `Conn ρ → Except DbErr α × Conn ρ`.

Per the comments in `src/core/db.py` (lines 77-80), every raw statement
implicitly opens a transaction when none is open; `commit` closes it.
-/

namespace Soundmap

/-- Trace events recorded for every raw operation performed on the
connection.  Statement events record whether the connection was already
inside a transaction when the statement ran. -/
inductive Ev : Type where
  | beginTx : Ev
  | commitTx : Ev
  | rollbackTx : Ev
  | readSt : Bool → Ev
  | writeSt : Bool → Ev
deriving Repr, DecidableEq

/-- Errors of the embedded database layer: an injected store failure, the
sqlite error raised by `BEGIN` inside an open transaction, and Python
`ValueError`s raised by the profile cog. -/
inductive DbErr : Type where
  | storeFailure : DbErr
  | nestedBegin : DbErr
  | valueErr : String → DbErr
deriving Repr, DecidableEq

/-- The state of the single global aiosqlite connection of
`src/core/db.py`, specialised to one table with rows of type `ρ`.
`committed` is the table as of the last commit, `current` the working
contents seen by statements, `inTx` the `in_transaction` flag,
`schedule` a failure-injection schedule consumed one entry per raw
statement (`true` = that statement fails), and `trace` the recorded
events. -/
structure Conn (ρ : Type) : Type where
  committed : List ρ
  current : List ρ
  inTx : Bool
  schedule : List Bool
  trace : List Ev
deriving Repr, DecidableEq

/-- A database computation: state transformer over `Conn` with errors. -/
def DbM (ρ α : Type) : Type := Conn ρ → Except DbErr α × Conn ρ

def DbM.pureD (a : α) : DbM ρ α := fun c => (Except.ok a, c)

def DbM.bindD (x : DbM ρ α) (f : α → DbM ρ β) : DbM ρ β := fun c =>
  match x c with
  | (Except.ok a, c') => f a c'
  | (Except.error e, c') => (Except.error e, c')

instance : Monad (DbM ρ) where
  pure := DbM.pureD
  bind := DbM.bindD

/-- Raise an error (models a Python `raise`). -/
def DbM.throwErr (e : DbErr) : DbM ρ α := fun c => (Except.error e, c)

/-- Pop the next failure-injection decision (no entry means no failure). -/
def popSch (s : List Bool) : Bool × List Bool := (s.headD false, s.tail)

/-- Raw read statement (a SELECT).  Implicitly opens a transaction when
none is open; the query result is a pure function of the current table
contents. -/
def rawRead (q : List ρ → β) : DbM ρ β := fun c =>
  let p := popSch c.schedule
  if p.1 then (Except.error DbErr.storeFailure, { c with schedule := p.2 })
  else (Except.ok (q c.current),
    { c with inTx := true, schedule := p.2, trace := c.trace ++ [Ev.readSt c.inTx] })

/-- Raw write statement (INSERT / UPDATE / DELETE).  Applies the
statement to the current contents and implicitly opens a transaction
when none is open. -/
def rawWrite (f : List ρ → List ρ) : DbM ρ Unit := fun c =>
  let p := popSch c.schedule
  if p.1 then (Except.error DbErr.storeFailure, { c with schedule := p.2 })
  else (Except.ok (),
    { c with current := f c.current, inTx := true, schedule := p.2,
             trace := c.trace ++ [Ev.writeSt c.inTx] })

/-- State effect of `db.commit()`: publish the current contents and
close the open transaction. -/
def commitS (c : Conn ρ) : Conn ρ :=
  { c with committed := c.current, inTx := false, trace := c.trace ++ [Ev.commitTx] }

/-- State effect of `db.rollback()`: discard the uncommitted contents
and close the open transaction. -/
def rollbackS (c : Conn ρ) : Conn ρ :=
  { c with current := c.committed, inTx := false, trace := c.trace ++ [Ev.rollbackTx] }

/-- The raw `BEGIN` statement issued by `transaction` (db.py line 135).
sqlite refuses to begin a transaction while one is already open. -/
def rawBegin : DbM ρ Unit := fun c =>
  let p := popSch c.schedule
  if p.1 then (Except.error DbErr.storeFailure, { c with schedule := p.2 })
  else if c.inTx then (Except.error DbErr.nestedBegin, { c with schedule := p.2 })
  else (Except.ok (),
    { c with inTx := true, schedule := p.2, trace := c.trace ++ [Ev.beginTx] })

/-- Embedding of `db.fetch_one` (src/core/db.py lines 68-83): run the
query, then commit the implicitly opened transaction unless the
connection was already inside an explicit transaction. -/
def fetch_one (q : List ρ → β) : DbM ρ β := fun c =>
  let t0 := c.inTx
  match rawRead q c with
  | (Except.error e, c') => (Except.error e, c')
  | (Except.ok r, c') => (Except.ok r, if t0 then c' else commitS c')

/-- Embedding of `db.fetch_all` (src/core/db.py lines 86-99); identical
transaction behaviour to `fetch_one`, the query returning all matches. -/
def fetch_all (q : List ρ → β) : DbM ρ β := fun c =>
  let t0 := c.inTx
  match rawRead q c with
  | (Except.error e, c') => (Except.error e, c')
  | (Except.ok r, c') => (Except.ok r, if t0 then c' else commitS c')

/-- Embedding of `db.execute` (src/core/db.py lines 102-117): run the
write statement and commit immediately unless already inside an explicit
transaction. -/
def execute (f : List ρ → List ρ) : DbM ρ Unit := fun c =>
  let t0 := c.inTx
  match rawWrite f c with
  | (Except.error e, c') => (Except.error e, c')
  | (Except.ok _, c') => (Except.ok (), if t0 then c' else commitS c')

/-- Embedding of `db.transaction` (src/core/db.py lines 120-142): issue
`BEGIN` (before the try-block, so a failing `BEGIN` is neither committed
nor rolled back by this scope), run the body, commit on success, roll
back and re-raise on error. -/
def transaction (body : DbM ρ α) : DbM ρ α := fun c =>
  match rawBegin (ρ := ρ) c with
  | (Except.error e, c1) => (Except.error e, c1)
  | (Except.ok _, c1) =>
    match body c1 with
    | (Except.error e, c2) => (Except.error e, rollbackS c2)
    | (Except.ok a, c2) => (Except.ok a, commitS c2)

/-- One row of the `user_epics` table (owned items): user id, track id,
serial epic number and manual-order position (spec section 6; positions
are plain SQL integers). -/
structure EpicRow : Type where
  user : String
  track : String
  num : Int
  pos : Int
deriving Repr, DecidableEq

/-- One row of the `user_fav_artists` table: user id, artist id,
optional badge and manual-order position. -/
structure FavRow : Type where
  user : String
  artistId : Nat
  badge : Option String
  pos : Int
deriving Repr, DecidableEq

/-- One row of the `artists` table: artist id and display name. -/
structure ArtistRow : Type where
  artistId : Nat
  name : String
deriving Repr, DecidableEq

/-- Python `x or 1` applied to an integer column value: `0` is falsy. -/
def orOne (x : Int) : Int := if x = 0 then 1 else x

/-- The query `SELECT COALESCE(MAX(position), 0) FROM user_epics WHERE
user_id=?` (src/cogs/profile.py lines 347-350). -/
def maxPosQ (u : String) (t : List EpicRow) : Int :=
  (((t.filter fun r => r.user == u).map (fun r => r.pos)).max?).getD 0

/-- Embedding of `ProfileCog._bump_positions` applied to `user_epics`
(src/cogs/profile.py lines 309-324, `get_next_position`): increment the
position of every row of the user and return 1 — the new entry is
prepended at the top, not appended. -/
def get_next_position (u : String) : DbM EpicRow Int := do
  execute (fun t => t.map fun r =>
    if r.user = u then { r with pos := r.pos + 1 } else r)
  pure 1

/-- Embedding of `ProfileCog.get_next_artist_position`
(src/cogs/profile.py lines 326-328), via `_bump_positions` on
`user_fav_artists`. -/
def get_next_artist_position (u : String) : DbM FavRow Int := do
  execute (fun t => t.map fun r =>
    if r.user = u then { r with pos := r.pos + 1 } else r)
  pure 1

/-- Embedding of `ProfileCog.move_epic_to` (src/cogs/profile.py lines
334-385).  Reads the entry's position and the user's maximum position
(both through bare `fetch_one` calls, outside any explicit transaction),
clamps the target into `[1, max]`, returns on a no-op, and otherwise
shifts the in-between range and writes the new position inside one
`transaction` scope. -/
def move_epic_to (u tr : String) (n : Int) (newPosReq : Int) : DbM EpicRow Unit := do
  let row ← fetch_one (fun t =>
    (t.find? fun r => r.user == u && r.track == tr && r.num == n).map (fun r => r.pos))
  match row with
  | none => DbM.throwErr (DbErr.valueErr "Epic not found for this user.")
  | some p => do
    let oldPos := orOne p
    let np1 := if newPosReq < 1 then 1 else newPosReq
    let maxRow ← fetch_one (fun t => maxPosQ u t)
    let maxPos := orOne maxRow
    let np := if np1 > maxPos then maxPos else np1
    if oldPos = np then pure ()
    else
      transaction (do
        if np < oldPos then
          execute (fun t => t.map fun r =>
            if r.user = u ∧ np ≤ r.pos ∧ r.pos < oldPos then { r with pos := r.pos + 1 } else r)
        else
          execute (fun t => t.map fun r =>
            if r.user = u ∧ r.pos ≤ np ∧ oldPos < r.pos then { r with pos := r.pos - 1 } else r)
        execute (fun t => t.map fun r =>
          if r.user = u ∧ r.track = tr ∧ r.num = n then { r with pos := np } else r))

/-- Outcome of the `delepic` command body. -/
inductive DelOut : Type where
  | removed : DelOut
  | notFound : DelOut
deriving Repr, DecidableEq

/-- Embedding of the database work of `ProfileCog.delepic`
(src/cogs/profile.py lines 776-808): read the entry's position; when
absent reply not-found without touching the table; otherwise, inside one
transaction, delete the row and decrement every position greater than
the removed one. -/
def delepic (u tr : String) : DbM EpicRow DelOut := do
  let row ← fetch_one (fun t =>
    (t.find? fun r => r.user == u && r.track == tr).map (fun r => r.pos))
  match row with
  | none => pure DelOut.notFound
  | some p => do
    let pos := orOne p
    transaction (do
      execute (fun t => t.filter fun r => !(r.user == u && r.track == tr))
      execute (fun t => t.map fun r =>
        if r.user = u ∧ pos < r.pos then { r with pos := r.pos - 1 } else r))
    pure DelOut.removed

/-- Outcome of the `addepic` command body. -/
inductive AddOut : Type where
  | added : AddOut
  | alreadyOwned : AddOut
deriving Repr, DecidableEq

/-- Embedding of the `user_epics` work of `ProfileCog.addepic`
(src/cogs/profile.py lines 747-765), after the Spotify lookup, number
check and track upsert (which touch other tables): check for an existing
entry for the same user and track; if present reply already-owned with
no writes, otherwise bump all of the user's positions and insert the new
entry at the returned position 1. -/
def addepicDb (u tr : String) (n : Int) : DbM EpicRow AddOut := do
  let dup ← fetch_one (fun t => t.find? fun r => r.user == u && r.track == tr)
  match dup with
  | some _ => pure AddOut.alreadyOwned
  | none => do
    let nextPos ← get_next_position u
    execute (fun t => t ++ [⟨u, tr, n, nextPos⟩])
    pure AddOut.added

/-- Embedding of the `user_fav_artists` work of
`ProfileCog.favartistcurrent` (src/cogs/profile.py lines 1420-1426),
with the artist row already resolved to `aid` (the Spotify lookup and
the `artists` upsert touch other tables): unconditionally bump all of
the user's favourite positions, then insert with
`ON CONFLICT(user_id, artist_id) DO NOTHING`. -/
def favartistcurrentDb (u : String) (aid : Nat) : DbM FavRow Unit := do
  let np ← get_next_artist_position u
  execute (fun t =>
    if t.any fun r => r.user == u && r.artistId == aid then t
    else t ++ [⟨u, aid, none, np⟩])

/-- Update loop of `sortartists` in `name` mode (src/cogs/profile.py
lines 1051-1056): write position `idx` to each artist of the fetched
ordering, `idx` counting from 1. -/
def sortLoop (u : String) : Int → List Nat → DbM FavRow Unit
  | _, [] => pure ()
  | idx, a :: rest => do
    execute (fun t => t.map fun r =>
      if r.user = u ∧ r.artistId = a then { r with pos := idx } else r)
    sortLoop u (idx + 1) rest

/-- Embedding of the `name` branch of `ProfileCog.sortartists`
(src/cogs/profile.py lines 1040-1057).  The `fetch_all` with
`ORDER BY a.name COLLATE NOCASE` is modelled nondeterministically: the
fetched ordering `order` is a parameter, constrained in the theorems by
`validNameOrder` to be any permutation of the user's artist ids that is
sorted by case-insensitive name — the query has no tie-breaking key, so
sqlite may return rows with equal names in any relative order. -/
def sortartistsName (u : String) (order : List Nat) : DbM FavRow Unit := do
  let _ ← fetch_all (fun _ => order)
  transaction (sortLoop u 1 order)

/-- The NOCASE collation key of a string: its character codes with the
ASCII uppercase letters folded to lowercase (sqlite's NOCASE folds only
A-Z). -/
def nocaseKey (s : String) : List Nat :=
  s.data.map fun ch => if 65 ≤ ch.toNat ∧ ch.toNat ≤ 90 then ch.toNat + 32 else ch.toNat

/-- Lexicographic comparison of collation keys (memcmp order). -/
def lexLe : List Nat → List Nat → Bool
  | [], _ => true
  | _ :: _, [] => false
  | a :: as, b :: bs => if a < b then true else if b < a then false else lexLe as bs

/-- Case-insensitive sort key of an artist id under the `artists` table:
the NOCASE key of the display name. -/
def nameKey (artists : List ArtistRow) (aid : Nat) : List Nat :=
  ((artists.find? fun a => a.artistId == aid).map (fun a => nocaseKey a.name)).getD []

/-- The orderings that `SELECT ... ORDER BY a.name COLLATE NOCASE` may
return for a user's favourite artists: permutations of the user's
artist ids that are sorted by case-insensitive display name. -/
def validNameOrder (artists : List ArtistRow) (t : List FavRow) (u : String)
    (order : List Nat) : Prop :=
  order.Perm ((t.filter fun r => r.user == u).map (fun r => r.artistId)) ∧
  order.Pairwise (fun x y => lexLe (nameKey artists x) (nameKey artists y) = true)

/-- Dense-position predicate of the specification: the positions are
exactly `1, ..., N` as a multiset (no gaps, no duplicates). -/
def densePositions (ps : List Int) : Prop :=
  ps.Perm ((List.range ps.length).map (fun i => (i : Int) + 1))

/-- Positions of one user's rows in the favourite-artist table. -/
def favPositions (u : String) (t : List FavRow) : List Int :=
  (t.filter fun r => r.user == u).map (fun r => r.pos)

/-- Positions of one user's rows in the owned-items table. -/
def epicPositions (u : String) (t : List EpicRow) : List Int :=
  (t.filter fun r => r.user == u).map (fun r => r.pos)

/-- Expected result of a position move per the specification: entries in
the closed interval between target and old position shift by one slot
(increment when moving earlier, decrement when moving later). -/
def shiftWindow (u : String) (target old : Int) (t : List EpicRow) : List EpicRow :=
  if target < old then
    t.map fun r =>
      if r.user = u ∧ target ≤ r.pos ∧ r.pos ≤ old - 1 then { r with pos := r.pos + 1 } else r
  else
    t.map fun r =>
      if r.user = u ∧ old + 1 ≤ r.pos ∧ r.pos ≤ target then { r with pos := r.pos - 1 } else r

/-- Expected final write of a move per the specification: the moved
entry's position becomes the target. -/
def setMoved (u tr : String) (n target : Int) (t : List EpicRow) : List EpicRow :=
  t.map fun r =>
    if r.user = u ∧ r.track = tr ∧ r.num = n then { r with pos := target } else r

instance [DecidableEq ε] [DecidableEq α] : DecidableEq (Except ε α) := fun x y =>
  match x, y with
  | Except.ok a, Except.ok b =>
    if h : a = b then isTrue (by rw [h]) else isFalse (fun hc => h (Except.ok.inj hc))
  | Except.error a, Except.error b =>
    if h : a = b then isTrue (by rw [h]) else isFalse (fun hc => h (Except.error.inj hc))
  | Except.ok _, Except.error _ => isFalse (fun hc => Except.noConfusion hc)
  | Except.error _, Except.ok _ => isFalse (fun hc => Except.noConfusion hc)

instance (ps : List Int) : Decidable (densePositions ps) := by
  unfold densePositions; exact inferInstance

instance (artists : List ArtistRow) (t : List FavRow) (u : String) (order : List Nat) :
    Decidable (validNameOrder artists t u order) := by
  unfold validNameOrder; exact inferInstance

/-- A freshly idle connection holding table contents `t`: nothing
uncommitted, no open transaction, no injected failures. -/
def conn0 (t : List ρ) : Conn ρ := ⟨t, t, false, [], []⟩

@[simp] theorem run_bind (x : DbM ρ α) (f : α → DbM ρ β) (c : Conn ρ) :
    (x >>= f) c =
      match x c with
      | (Except.ok a, c') => f a c'
      | (Except.error e, c') => (Except.error e, c') := rfl

@[simp] theorem run_pure (a : α) (c : Conn ρ) :
    (pure a : DbM ρ α) c = (Except.ok a, c) := rfl

theorem fetch_one_idle (q : List ρ → β) (c : Conn ρ)
    (h1 : c.inTx = false) (h2 : c.schedule = []) :
    fetch_one q c = (Except.ok (q c.current),
      ⟨c.current, c.current, false, [], c.trace ++ [Ev.readSt false, Ev.commitTx]⟩) := by
  simp [fetch_one, rawRead, popSch, commitS, h1, h2]

theorem fetch_all_idle (q : List ρ → β) (c : Conn ρ)
    (h1 : c.inTx = false) (h2 : c.schedule = []) :
    fetch_all q c = (Except.ok (q c.current),
      ⟨c.current, c.current, false, [], c.trace ++ [Ev.readSt false, Ev.commitTx]⟩) := by
  simp [fetch_all, rawRead, popSch, commitS, h1, h2]

theorem execute_idle (f : List ρ → List ρ) (c : Conn ρ)
    (h1 : c.inTx = false) (h2 : c.schedule = []) :
    execute f c = (Except.ok (),
      ⟨f c.current, f c.current, false, [], c.trace ++ [Ev.writeSt false, Ev.commitTx]⟩) := by
  simp [execute, rawWrite, popSch, commitS, h1, h2]

theorem execute_inTx (f : List ρ → List ρ) (c : Conn ρ)
    (h1 : c.inTx = true) (h2 : c.schedule = []) :
    execute f c = (Except.ok (),
      ⟨c.committed, f c.current, true, [], c.trace ++ [Ev.writeSt true]⟩) := by
  simp [execute, rawWrite, popSch, h1, h2]

theorem rawBegin_idle (c : Conn ρ) (h1 : c.inTx = false) (h2 : c.schedule = []) :
    rawBegin (ρ := ρ) c = (Except.ok (),
      ⟨c.committed, c.current, true, [], c.trace ++ [Ev.beginTx]⟩) := by
  simp [rawBegin, popSch, h1, h2]

/-- Running a transaction whose body is two consecutive writes on an
idle connection with no injected failures: both statements apply to the
working contents and the result is committed at scope exit. -/
theorem transaction_two_writes_idle (f g : List ρ → List ρ) (c : Conn ρ)
    (h1 : c.inTx = false) (h2 : c.schedule = []) :
    transaction (do execute f; execute g) c = (Except.ok (),
      ⟨g (f c.current), g (f c.current), false, [],
        c.trace ++ [Ev.beginTx, Ev.writeSt true, Ev.writeSt true, Ev.commitTx]⟩) := by
  rw [transaction, rawBegin_idle c h1 h2]
  simp [run_bind, execute_inTx, commitS]

/-- C1: the density invariant fails on the code.  A user holds a single
favourite artist (id 1) at position 1, so the positions are exactly
`{1}`; invoking `favartistcurrent` for that same artist bumps every
position (via `get_next_artist_position`) and then the
`ON CONFLICT(user_id, artist_id) DO NOTHING` insert inserts nothing,
leaving the single live entry at position 2 — the set of positions is
`{2}`, not `{1}`: a gap at 1.  This contradicts the claimed invariant
for sequences containing `favartistcurrent`. -/
theorem C1_favartistcurrent_breaks_density :
    densePositions (favPositions "u" [⟨"u", 1, none, 1⟩]) ∧
    (favartistcurrentDb "u" 1 (conn0 [⟨"u", 1, none, 1⟩])).2.committed
      = [⟨"u", 1, none, 2⟩] ∧
    ¬ densePositions (favPositions "u"
        (favartistcurrentDb "u" 1 (conn0 [⟨"u", 1, none, 1⟩])).2.committed) :=
  ⟨by decide, by decide, by decide⟩

/-- C2 counterexample: for a user owning entries at positions 1 and 2,
the claimed next-position value is `max + 1 = 3`, but
`get_next_position` returns 1, and it mutates the stored rows (bumping
both positions), contradicting the claim that it returns
`current_max_position + 1` and does not mutate. -/
theorem C2_counterexample :
    maxPosQ "u" [⟨"u", "a", 1, 1⟩, ⟨"u", "b", 1, 2⟩] + 1 = 3 ∧
    (get_next_position "u" (conn0 [⟨"u", "a", 1, 1⟩, ⟨"u", "b", 1, 2⟩])).1
      = Except.ok 1 ∧
    (get_next_position "u" (conn0 [⟨"u", "a", 1, 1⟩, ⟨"u", "b", 1, 2⟩])).1
      ≠ Except.ok 3 ∧
    (get_next_position "u" (conn0 [⟨"u", "a", 1, 1⟩, ⟨"u", "b", 1, 2⟩])).2.committed
      = [⟨"u", "a", 1, 2⟩, ⟨"u", "b", 1, 3⟩] ∧
    (get_next_position "u" (conn0 [⟨"u", "a", 1, 1⟩, ⟨"u", "b", 1, 2⟩])).2.committed
      ≠ [⟨"u", "a", 1, 1⟩, ⟨"u", "b", 1, 2⟩] :=
  ⟨by decide, by decide, by decide, by decide, by decide⟩

/-- C2 amended: on an idle connection the next-position helper always
returns 1 and mutates the table, incrementing the position of every
stored row of the user by one (it is a prepend-at-top helper, not a
non-mutating append helper); the subsequent insert of `addepic` then
stores the new entry at the returned position 1. -/
theorem C2_next_position_prepends :
    ∀ (c : Conn EpicRow) (u tr : String) (n : Int),
      c.inTx = false → c.schedule = [] →
      (get_next_position u c = (Except.ok 1,
        ⟨c.current.map (fun s => if s.user = u then { s with pos := s.pos + 1 } else s),
         c.current.map (fun s => if s.user = u then { s with pos := s.pos + 1 } else s),
         false, [], c.trace ++ [Ev.writeSt false, Ev.commitTx]⟩)) ∧
      ((c.current.find? fun s => s.user == u && s.track == tr) = none →
        (addepicDb u tr n c).1 = Except.ok AddOut.added ∧
        (addepicDb u tr n c).2.committed
          = (c.current.map fun s => if s.user = u then { s with pos := s.pos + 1 } else s)
              ++ [⟨u, tr, n, 1⟩]) := by
  intro c u tr n hTx hSch
  constructor
  · rw [get_next_position, run_bind, execute_idle _ c hTx hSch]
    rfl
  · intro hFind
    unfold addepicDb
    rw [run_bind, fetch_one_idle _ c hTx hSch]
    simp only [hFind]
    rw [run_bind, get_next_position, run_bind, execute_idle _ _ rfl rfl]
    simp only [run_pure]
    rw [run_bind, execute_idle _ _ rfl rfl]
    exact ⟨rfl, rfl⟩

/-- C2 witness: the amended claim evaluated for a user owning entries a
and b at positions 1 and 2 and a fresh track c: the helper returns 1
after bumping both positions, and the insert leaves a at 2, b at 3 and
the new entry at 1. -/
theorem C2_witness :
    (get_next_position "u" (conn0 [⟨"u", "a", 1, 1⟩, ⟨"u", "b", 1, 2⟩])).1
      = Except.ok 1 ∧
    (addepicDb "u" "c" 9 (conn0 [⟨"u", "a", 1, 1⟩, ⟨"u", "b", 1, 2⟩])).1
      = Except.ok AddOut.added ∧
    (addepicDb "u" "c" 9 (conn0 [⟨"u", "a", 1, 1⟩, ⟨"u", "b", 1, 2⟩])).2.committed
      = [⟨"u", "a", 1, 2⟩, ⟨"u", "b", 1, 3⟩, ⟨"u", "c", 9, 1⟩] := by
  have h := C2_next_position_prepends (conn0 [⟨"u", "a", 1, 1⟩, ⟨"u", "b", 1, 2⟩])
    "u" "c" 9 rfl rfl
  have h2 := h.2 (by decide)
  refine ⟨by rw [h.1], h2.1, ?_⟩
  rw [h2.2]
  decide

/-- C3: move semantics.  Concrete scenario: with items X, Y, Z at
positions 1, 2, 3, moving Z to 1 yields Z, X, Y at positions 1, 2, 3
(X goes to 2, Y to 3, Z to 1), and subsequently moving X to 3 yields
Z, Y, X (X to 3, Y to 2, Z stays at 1).  In general, for an in-range
target different from the entry's old position, the move increments the
position of every entry of the user in `[target, old-1]` when moving
earlier, decrements every entry in `[old+1, target]` when moving later,
and then writes the moved entry's position to the target, as stated by
`shiftWindow` and `setMoved`. -/
theorem C3_move_shift :
    ((move_epic_to "u" "Z" 1 1
        (conn0 [⟨"u", "X", 1, 1⟩, ⟨"u", "Y", 1, 2⟩, ⟨"u", "Z", 1, 3⟩])).2.committed
      = [⟨"u", "X", 1, 2⟩, ⟨"u", "Y", 1, 3⟩, ⟨"u", "Z", 1, 1⟩]) ∧
    ((move_epic_to "u" "X" 1 3
        (move_epic_to "u" "Z" 1 1
          (conn0 [⟨"u", "X", 1, 1⟩, ⟨"u", "Y", 1, 2⟩, ⟨"u", "Z", 1, 3⟩])).2).2.committed
      = [⟨"u", "X", 1, 3⟩, ⟨"u", "Y", 1, 2⟩, ⟨"u", "Z", 1, 1⟩]) ∧
    ∀ (c : Conn EpicRow) (u tr : String) (n target : Int) (r : EpicRow),
      c.inTx = false → c.schedule = [] →
      (c.current.find? fun s => s.user == u && s.track == tr && s.num == n) = some r →
      (∀ s ∈ c.current, s.user = u → 1 ≤ s.pos) →
      1 ≤ target → target ≤ maxPosQ u c.current → target ≠ r.pos →
      (move_epic_to u tr n target c).1 = Except.ok () ∧
      (move_epic_to u tr n target c).2.committed
        = setMoved u tr n target (shiftWindow u target r.pos c.current) := by
  refine ⟨by decide, by decide, ?_⟩
  intro c u tr n target r hTx hSch hFind hPos hT1 hT2 hTne
  have hrmem := List.mem_of_find?_eq_some hFind
  have hrpred := List.find?_some hFind
  have hru : r.user = u := by
    simp only [Bool.and_eq_true, beq_iff_eq] at hrpred; exact hrpred.1.1
  have hrpos : 1 ≤ r.pos := hPos r hrmem hru
  have hor1 : orOne r.pos = r.pos := by unfold orOne; rw [if_neg]; omega
  have hmaxne : maxPosQ u c.current ≠ 0 := by omega
  have hor2 : orOne (maxPosQ u c.current) = maxPosQ u c.current := by
    unfold orOne; rw [if_neg hmaxne]
  unfold move_epic_to
  rw [run_bind, fetch_one_idle _ c hTx hSch]
  simp only [hFind, Option.map_some']
  rw [run_bind, fetch_one_idle _ _ rfl rfl]
  simp only []
  rw [hor1, hor2]
  have hclamp : (if (if target < 1 then 1 else target) > maxPosQ u c.current
      then maxPosQ u c.current else if target < 1 then 1 else target) = target := by
    rw [if_neg (show ¬ target < 1 by omega)]
    rw [if_neg (show ¬ target > maxPosQ u c.current by omega)]
  rw [hclamp]
  rw [if_neg (show ¬ r.pos = target from fun h => hTne h.symm)]
  rcases lt_or_gt_of_ne hTne with hlt | hgt
  · rw [if_pos hlt, transaction_two_writes_idle _ _ _ rfl rfl]
    refine ⟨rfl, ?_⟩
    unfold setMoved shiftWindow
    rw [if_pos hlt]
    show List.map _ (List.map _ c.current) = _
    congr 1
    apply List.map_congr_left
    intro s _
    refine if_congr ?_ rfl rfl
    constructor
    · rintro ⟨a, b, d⟩; exact ⟨a, b, by omega⟩
    · rintro ⟨a, b, d⟩; exact ⟨a, b, by omega⟩
  · rw [if_neg (show ¬ target < r.pos by omega), transaction_two_writes_idle _ _ _ rfl rfl]
    refine ⟨rfl, ?_⟩
    unfold setMoved shiftWindow
    rw [if_neg (show ¬ target < r.pos by omega)]
    show List.map _ (List.map _ c.current) = _
    congr 1
    apply List.map_congr_left
    intro s _
    refine if_congr ?_ rfl rfl
    constructor
    · rintro ⟨a, b, d⟩; exact ⟨a, by omega, by omega⟩
    · rintro ⟨a, b, d⟩; exact ⟨a, by omega, by omega⟩

/-- C3 witness: the general clause of `C3_move_shift` applied to a user
with entries a, b at positions 1, 2, moving b to position 1. -/
theorem C3_witness :
    (move_epic_to "u" "b" 1 1 (conn0 [⟨"u", "a", 1, 1⟩, ⟨"u", "b", 1, 2⟩])).1
      = Except.ok () ∧
    (move_epic_to "u" "b" 1 1 (conn0 [⟨"u", "a", 1, 1⟩, ⟨"u", "b", 1, 2⟩])).2.committed
      = setMoved "u" "b" 1 1 (shiftWindow "u" 1 2 [⟨"u", "a", 1, 1⟩, ⟨"u", "b", 1, 2⟩]) :=
  C3_move_shift.2.2 (conn0 [⟨"u", "a", 1, 1⟩, ⟨"u", "b", 1, 2⟩]) "u" "b" 1 1
    ⟨"u", "b", 1, 2⟩ rfl rfl (by decide) (by decide) (by decide) (by decide) (by decide)

/-- C4 counterexample: in a successful move (three items, moving the
last one to position 1) the recorded statement trace shows that the
entry-position read and the max-position read each run outside any
transaction (`readSt false`) and are committed individually: the run
performs three separate commits, and its very first statement runs with
no transaction open.  Hence not all steps of the move execute inside one
transaction — only the range shift and the final write do. -/
theorem C4_counterexample :
    (move_epic_to "u" "Z" 1 1
        (conn0 [⟨"u", "X", 1, 1⟩, ⟨"u", "Y", 1, 2⟩, ⟨"u", "Z", 1, 3⟩])).2.trace
      = [Ev.readSt false, Ev.commitTx, Ev.readSt false, Ev.commitTx,
         Ev.beginTx, Ev.writeSt true, Ev.writeSt true, Ev.commitTx] ∧
    ((move_epic_to "u" "Z" 1 1
        (conn0 [⟨"u", "X", 1, 1⟩, ⟨"u", "Y", 1, 2⟩, ⟨"u", "Z", 1, 3⟩])).2.trace.count
      Ev.commitTx = 3) ∧
    ((move_epic_to "u" "Z" 1 1
        (conn0 [⟨"u", "X", 1, 1⟩, ⟨"u", "Y", 1, 2⟩, ⟨"u", "Z", 1, 3⟩])).2.trace.headD
      Ev.commitTx = Ev.readSt false) :=
  ⟨by decide, by decide, by decide⟩

theorem le_maxPosQ {t : List EpicRow} {u : String} {r : EpicRow}
    (hmem : r ∈ t) (hu : r.user = u) : r.pos ≤ maxPosQ u t := by
  unfold maxPosQ
  have hmem2 : r.pos ∈ (t.filter fun s => s.user == u).map (fun s => s.pos) :=
    List.mem_map_of_mem _ (List.mem_filter.mpr ⟨hmem, by simp [hu]⟩)
  rcases Option.isSome_iff_exists.mp (List.isSome_max?_of_mem hmem2) with ⟨m, hm⟩
  have hall := (List.max?_le_iff (fun a b c => max_le_iff) hm).mp le_rfl
  rw [hm]
  exact hall r.pos hmem2

/-- C7: clamping of move targets.  On an idle connection whose positions
for the user are at least 1, a move with any requested target below 1
behaves identically (same result, same final connection state) to a move
to position 1, and a move with any requested target above the user's
maximum position behaves identically to a move to that maximum: the
target is clamped into `[1, max_position]` and an out-of-range numeric
target is not an error. -/
theorem C7_move_clamping :
    ∀ (c : Conn EpicRow) (u tr : String) (n lo hi : Int),
      c.inTx = false → c.schedule = [] →
      (∀ s ∈ c.current, s.user = u → 1 ≤ s.pos) →
      lo < 1 → maxPosQ u c.current < hi →
      move_epic_to u tr n lo c = move_epic_to u tr n 1 c ∧
      move_epic_to u tr n hi c = move_epic_to u tr n (maxPosQ u c.current) c := by
  intro c u tr n lo hi hTx hSch hPos hlo hhi
  constructor
  · unfold move_epic_to
    rw [run_bind, run_bind, fetch_one_idle _ c hTx hSch]
    rcases hf : List.find? (fun s => s.user == u && s.track == tr && s.num == n) c.current
        with _ | r
    · simp only [hf, Option.map_none']
    · simp only [hf, Option.map_some']
      rw [if_pos hlo, if_neg (show ¬ (1:Int) < 1 by omega)]
  · have hr1 : ∀ r : EpicRow,
        List.find? (fun s => s.user == u && s.track == tr && s.num == n) c.current = some r →
        1 ≤ maxPosQ u c.current := by
      intro r hf
      have hrmem := List.mem_of_find?_eq_some hf
      have hrpred := List.find?_some hf
      have hru : r.user = u := by
        simp only [Bool.and_eq_true, beq_iff_eq] at hrpred; exact hrpred.1.1
      have := le_maxPosQ hrmem hru
      have := hPos r hrmem hru
      omega
    unfold move_epic_to
    rw [run_bind, run_bind, fetch_one_idle _ c hTx hSch]
    rcases hf : List.find? (fun s => s.user == u && s.track == tr && s.num == n) c.current
        with _ | r
    · simp only [hf, Option.map_none']
    · simp only [hf, Option.map_some']
      have hmax1 : 1 ≤ maxPosQ u c.current := hr1 r hf
      have hone : orOne (maxPosQ u c.current) = maxPosQ u c.current := by
        unfold orOne; rw [if_neg (by omega)]
      rw [if_neg (show ¬ hi < 1 by omega),
          if_neg (show ¬ maxPosQ u c.current < 1 by omega)]
      rw [run_bind, run_bind, fetch_one_idle _ _ rfl rfl]
      simp only []
      rw [hone]
      rw [if_pos (show hi > maxPosQ u c.current by omega),
          if_neg (show ¬ maxPosQ u c.current > maxPosQ u c.current by omega)]

/-- C7 witness: clamping applied to a user with two entries at positions
1 and 2: a requested target 0 equals a move to 1 and a requested target
7 (that is, 2 + 5) equals a move to the maximum position 2. -/
theorem C7_witness :
    move_epic_to "u" "b" 1 0 (conn0 [⟨"u", "a", 1, 1⟩, ⟨"u", "b", 1, 2⟩])
      = move_epic_to "u" "b" 1 1 (conn0 [⟨"u", "a", 1, 1⟩, ⟨"u", "b", 1, 2⟩]) ∧
    move_epic_to "u" "b" 1 7 (conn0 [⟨"u", "a", 1, 1⟩, ⟨"u", "b", 1, 2⟩])
      = move_epic_to "u" "b" 1 2 (conn0 [⟨"u", "a", 1, 1⟩, ⟨"u", "b", 1, 2⟩]) := by
  have h := C7_move_clamping (conn0 [⟨"u", "a", 1, 1⟩, ⟨"u", "b", 1, 2⟩]) "u" "b" 1 0 7
    rfl rfl (by decide) (by decide) (by decide)
  exact h

theorem fetch_one_cases (q : List ρ → β) (c : Conn ρ)
    (hTx : c.inTx = false) (hCur : c.current = c.committed) :
    fetch_one q c = (Except.error DbErr.storeFailure, { c with schedule := c.schedule.tail }) ∨
    fetch_one q c = (Except.ok (q c.committed),
      ⟨c.committed, c.committed, false, c.schedule.tail,
        c.trace ++ [Ev.readSt false, Ev.commitTx]⟩) := by
  obtain ⟨com, cur, tx, sch, tr⟩ := c
  simp only at hTx hCur
  subst hTx
  subst hCur
  rcases sch with _ | ⟨_ | _, rest⟩ <;>
    simp [fetch_one, rawRead, popSch, commitS]

/-- A transaction whose body is two consecutive writes, run with no open
transaction and nothing uncommitted, restores both the committed and the
working contents to the pre-operation committed contents whenever it
ends in an error, whichever statement the failure hits. -/
theorem tx2_error (f g : List ρ → List ρ) (c : Conn ρ) (hTx : c.inTx = false)
    (hCur : c.current = c.committed) :
    ∀ e c', transaction (do execute f; execute g) c = (Except.error e, c') →
      c'.committed = c.committed ∧ c'.current = c.committed := by
  obtain ⟨com, cur, tx, sch, tr⟩ := c
  simp only at hTx hCur
  subst hTx
  subst hCur
  intro e c' h
  rcases sch with _ | ⟨_ | _, _ | ⟨_ | _, _ | ⟨_ | _, rest⟩⟩⟩ <;>
    simp [transaction, rawBegin, execute, rawWrite, popSch, rollbackS, commitS,
      run_bind, Prod.mk.injEq] at h <;>
    (try (obtain ⟨h1, h2⟩ := h; subst h2; exact ⟨rfl, rfl⟩))

/-- C4 amended, atomicity part: for any failure-injection schedule, if a
move ends in an error — an injected store failure at any of its five raw
statements (the two reads, BEGIN, the range shift or the final write) or
the entry not being found — then the committed and working table
contents equal the pre-operation committed contents: no position differs
from its pre-operation value.  (The first conjunct of the original claim
is refuted separately: the reads and clamping run outside the
transaction, which encloses only the shift and the final write.) -/
theorem C4_move_atomic :
    ∀ (c : Conn EpicRow) (u tr : String) (n p : Int),
      c.inTx = false → c.current = c.committed →
      ∀ e c', move_epic_to u tr n p c = (Except.error e, c') →
        c'.committed = c.committed ∧ c'.current = c.committed := by
  intro c u tr n p hTx hCur e c' h
  unfold move_epic_to at h
  rw [run_bind] at h
  rcases fetch_one_cases
      (fun t => (t.find? fun s => s.user == u && s.track == tr && s.num == n).map
        (fun r => r.pos)) c hTx hCur with hf | hf <;> rw [hf] at h
  · simp only [Prod.mk.injEq] at h
    obtain ⟨h1, h2⟩ := h
    subst h2
    exact ⟨rfl, hCur⟩
  · simp only [] at h
    rcases hfind : List.find? (fun s => s.user == u && s.track == tr && s.num == n)
        c.committed with _ | r <;>
      simp only [hfind, Option.map_some', Option.map_none'] at h
    · simp only [DbM.throwErr, Prod.mk.injEq] at h
      obtain ⟨h1, h2⟩ := h
      subst h2
      exact ⟨rfl, rfl⟩
    · rw [run_bind] at h
      rcases fetch_one_cases (fun t => maxPosQ u t)
          ⟨c.committed, c.committed, false, c.schedule.tail,
            c.trace ++ [Ev.readSt false, Ev.commitTx]⟩ rfl rfl with hg | hg <;> rw [hg] at h
      · simp only [Prod.mk.injEq] at h
        obtain ⟨h1, h2⟩ := h
        subst h2
        exact ⟨rfl, rfl⟩
      · simp only [] at h
        repeat' split at h
        all_goals
          first
            | (exact tx2_error _ _
                ⟨c.committed, c.committed, false, c.schedule.tail.tail, _⟩ rfl rfl e c' h)
            | simp at h

/-- C5: delete with compaction.  On an idle connection, (1) when an
entry for the user and track exists at position p, `delepic` reports
removed and the committed table is the original with the user's rows for
that track removed and every remaining entry of the user with position
greater than p decremented by exactly 1 — entries at position less than
p (and other users' rows) are untouched by the map; (2) when no such
entry exists it reports not-found and the table is unchanged; (3) for
any failure-injection schedule, an error leaves every committed and
working position at its pre-operation value (the delete and the shift
run inside one transaction). -/
theorem C5_delepic_compacts :
    ∀ (c : Conn EpicRow) (u tr : String),
      c.inTx = false → c.current = c.committed →
      (∀ (r : EpicRow),
        c.schedule = [] →
        (c.current.find? fun s => s.user == u && s.track == tr) = some r →
        (∀ s ∈ c.current, s.user = u → 1 ≤ s.pos) →
        (delepic u tr c).1 = Except.ok DelOut.removed ∧
        (delepic u tr c).2.committed
          = (c.current.filter fun s => ¬(s.user = u ∧ s.track = tr)).map
              (fun s => if s.user = u ∧ r.pos < s.pos then { s with pos := s.pos - 1 } else s)) ∧
      (c.schedule = [] →
        (c.current.find? fun s => s.user == u && s.track == tr) = none →
        (delepic u tr c).1 = Except.ok DelOut.notFound ∧
        (delepic u tr c).2.committed = c.committed ∧
        (delepic u tr c).2.current = c.committed) ∧
      (∀ e c', delepic u tr c = (Except.error e, c') →
        c'.committed = c.committed ∧ c'.current = c.committed) := by
  intro c u tr hTx hCur
  refine ⟨?_, ?_, ?_⟩
  · intro r hSch hFind hPos
    have hrmem := List.mem_of_find?_eq_some hFind
    have hrpred := List.find?_some hFind
    have hru : r.user = u := by
      simp only [Bool.and_eq_true, beq_iff_eq] at hrpred; exact hrpred.1
    have hrpos : 1 ≤ r.pos := hPos r hrmem hru
    have hor1 : orOne r.pos = r.pos := by unfold orOne; rw [if_neg]; omega
    unfold delepic
    rw [run_bind, fetch_one_idle _ c hTx hSch]
    simp only [hFind, Option.map_some']
    rw [hor1]
    rw [run_bind, transaction_two_writes_idle _ _ _ rfl rfl]
    refine ⟨rfl, ?_⟩
    show List.map _ (List.filter _ c.current) = _
    congr 1
    apply List.filter_congr
    intro s _
    rw [Bool.eq_iff_iff]
    simp
  · intro hSch hFind
    unfold delepic
    rw [run_bind, fetch_one_idle _ c hTx hSch]
    simp only [hFind, Option.map_none']
    exact ⟨rfl, hCur, hCur⟩
  · intro e c' h
    unfold delepic at h
    rw [run_bind] at h
    rcases fetch_one_cases
        (fun t => (t.find? fun s => s.user == u && s.track == tr).map (fun s => s.pos))
        c hTx hCur with hf | hf <;> rw [hf] at h
    · simp only [Prod.mk.injEq] at h
      obtain ⟨h1, h2⟩ := h
      subst h2
      exact ⟨rfl, hCur⟩
    · simp only [] at h
      rcases hfind : List.find? (fun s => s.user == u && s.track == tr) c.committed
          with _ | r <;>
        simp only [hfind, Option.map_some', Option.map_none'] at h
      · simp at h
      · rw [run_bind] at h
        rcases htx : transaction
            (do
              execute (fun t => t.filter fun s => !(s.user == u && s.track == tr))
              execute (fun t => t.map fun s =>
                if s.user = u ∧ orOne r.pos < s.pos then { s with pos := s.pos - 1 } else s))
            ⟨c.committed, c.committed, false, c.schedule.tail,
              c.trace ++ [Ev.readSt false, Ev.commitTx]⟩ with ⟨e2 | a, c2⟩ <;>
          rw [htx] at h
        · simp only [Prod.mk.injEq, Except.error.injEq] at h
          obtain ⟨h1, h2⟩ := h
          subst h1
          subst h2
          exact tx2_error _ _
            ⟨c.committed, c.committed, false, c.schedule.tail,
              c.trace ++ [Ev.readSt false, Ev.commitTx]⟩ rfl rfl e2 c2 htx
        · simp at h

/-- C5 witness: deleting track b at position 2 out of three entries
leaves a at position 1 (untouched, below the removed position) and c
decremented from 3 to 2. -/
theorem C5_witness :
    (delepic "u" "b" (conn0 [⟨"u", "a", 1, 1⟩, ⟨"u", "b", 1, 2⟩, ⟨"u", "c", 1, 3⟩])).1
      = Except.ok DelOut.removed ∧
    (delepic "u" "b" (conn0 [⟨"u", "a", 1, 1⟩, ⟨"u", "b", 1, 2⟩, ⟨"u", "c", 1, 3⟩])).2.committed
      = [⟨"u", "a", 1, 1⟩, ⟨"u", "c", 1, 2⟩] := by
  have h := (C5_delepic_compacts
      (conn0 [⟨"u", "a", 1, 1⟩, ⟨"u", "b", 1, 2⟩, ⟨"u", "c", 1, 3⟩]) "u" "b" rfl rfl).1
    ⟨"u", "b", 1, 2⟩ rfl (by decide) (by decide)
  refine ⟨h.1, ?_⟩
  rw [h.2]
  decide

/-- The connection used in the C4 witness: three owned items and a
failure schedule that lets the two reads, the BEGIN and the range shift
succeed and fails the fifth raw statement — the final position write. -/
def c4conn : Conn EpicRow :=
  ⟨[⟨"u", "X", 1, 1⟩, ⟨"u", "Y", 1, 2⟩, ⟨"u", "Z", 1, 3⟩],
   [⟨"u", "X", 1, 1⟩, ⟨"u", "Y", 1, 2⟩, ⟨"u", "Z", 1, 3⟩],
   false, [false, false, false, false, true], []⟩

/-- C4 witness: `C4_move_atomic` applied to a store failure injected on
the final write of a move, after the range shift already ran: the error
propagates and every committed and working position equals its
pre-operation value. -/
theorem C4_witness :
    (move_epic_to "u" "Z" 1 1 c4conn).1 = Except.error DbErr.storeFailure ∧
    (move_epic_to "u" "Z" 1 1 c4conn).2.committed
      = [⟨"u", "X", 1, 1⟩, ⟨"u", "Y", 1, 2⟩, ⟨"u", "Z", 1, 3⟩] ∧
    (move_epic_to "u" "Z" 1 1 c4conn).2.current
      = [⟨"u", "X", 1, 1⟩, ⟨"u", "Y", 1, 2⟩, ⟨"u", "Z", 1, 3⟩] := by
  have h := C4_move_atomic c4conn "u" "Z" 1 1 rfl rfl DbErr.storeFailure
    (move_epic_to "u" "Z" 1 1 c4conn).2 (by decide)
  exact ⟨by decide, h.1, h.2⟩

/-- C6 counterexample: entering a transaction scope while already inside
one does not succeed.  `transaction` issues a plain `BEGIN` before its
try-block, so the nested scope raises sqlite's cannot-start-a-
transaction-within-a-transaction error even for a trivial body, while
the same body in a single scope succeeds; the outer scope catches the
error and rolls back. -/
theorem C6_counterexample :
    (transaction (transaction (pure ())) (conn0 ([] : List EpicRow))).1
      = Except.error DbErr.nestedBegin ∧
    (transaction (pure ()) (conn0 ([] : List EpicRow))).1 = Except.ok () ∧
    (transaction (transaction (pure ())) (conn0 ([] : List EpicRow))).2.trace
      = [Ev.beginTx, Ev.rollbackTx] :=
  ⟨by decide, by decide, by decide⟩

theorem rawBegin_ok (c : Conn ρ) (hTx : c.inTx = false)
    (hp : (popSch c.schedule).1 = false) :
    rawBegin (ρ := ρ) c = (Except.ok (),
      ⟨c.committed, c.current, true, (popSch c.schedule).2, c.trace ++ [Ev.beginTx]⟩) := by
  simp only [rawBegin]
  rw [hp]
  simp [hTx]

/-- C6 amended: the transaction scope commits atomically on normal exit
and rolls back and re-raises on any error raised by the body, but nested
use does not collapse to the outermost scope: entering a transaction
scope while one is already open fails with the error raised by the well
formed scope's unconditional BEGIN statement — the body of the inner
scope never runs, the inner scope neither commits nor rolls back, and
the outer scope rolls back in response. -/
theorem C6_transaction_scope {ρ α : Type} :
    (∀ (body : DbM ρ α) (c : Conn ρ) (a : α) (c2 : Conn ρ),
      c.inTx = false → (popSch c.schedule).1 = false →
      body ⟨c.committed, c.current, true, (popSch c.schedule).2,
        c.trace ++ [Ev.beginTx]⟩ = (Except.ok a, c2) →
      transaction body c = (Except.ok a, commitS c2)) ∧
    (∀ (body : DbM ρ α) (c : Conn ρ) (e : DbErr) (c2 : Conn ρ),
      c.inTx = false → (popSch c.schedule).1 = false →
      body ⟨c.committed, c.current, true, (popSch c.schedule).2,
        c.trace ++ [Ev.beginTx]⟩ = (Except.error e, c2) →
      transaction body c = (Except.error e, rollbackS c2)) ∧
    (∀ (body : DbM ρ α) (c : Conn ρ),
      c.inTx = false → c.schedule = [] →
      transaction (transaction body) c
        = (Except.error DbErr.nestedBegin,
            ⟨c.committed, c.committed, false, [],
              c.trace ++ [Ev.beginTx, Ev.rollbackTx]⟩)) := by
  refine ⟨?_, ?_, ?_⟩
  · intro body c a c2 hTx hp hbody
    unfold transaction
    rw [rawBegin_ok c hTx hp]
    simp only [hbody]
  · intro body c e c2 hTx hp hbody
    unfold transaction
    rw [rawBegin_ok c hTx hp]
    simp only [hbody]
  · intro body c hTx hSch
    unfold transaction
    rw [rawBegin_ok c hTx (by rw [hSch]; rfl)]
    simp only [hSch]
    simp [rawBegin, popSch, rollbackS]

/-- C6 witness: the amended claim at concrete inputs — a two-row write
body commits its effect on normal exit; a raising body rolls back and
re-raises; a nested scope fails with the nested-BEGIN error. -/
theorem C6_witness :
    transaction (execute (fun t => t ++ [⟨"u", "a", 1, 1⟩])) (conn0 ([] : List EpicRow))
      = (Except.ok (), commitS
          ⟨[], [⟨"u", "a", 1, 1⟩], true, [], [Ev.beginTx, Ev.writeSt true]⟩) ∧
    transaction (DbM.throwErr (DbErr.valueErr "boom") : DbM EpicRow Unit)
        (conn0 ([] : List EpicRow))
      = (Except.error (DbErr.valueErr "boom"), rollbackS ⟨[], [], true, [], [Ev.beginTx]⟩) ∧
    transaction (transaction (pure () : DbM EpicRow Unit)) (conn0 ([] : List EpicRow))
      = (Except.error DbErr.nestedBegin, ⟨[], [], false, [], [Ev.beginTx, Ev.rollbackTx]⟩) := by
  refine ⟨?_, ?_, ?_⟩
  · exact C6_transaction_scope.1 (execute (fun t => t ++ [⟨"u", "a", 1, 1⟩]))
      (conn0 ([] : List EpicRow)) ()
      ⟨[], [⟨"u", "a", 1, 1⟩], true, [], [Ev.beginTx, Ev.writeSt true]⟩
      rfl rfl (by decide)
  · exact C6_transaction_scope.2.1 (DbM.throwErr (DbErr.valueErr "boom"))
      (conn0 ([] : List EpicRow)) (DbErr.valueErr "boom")
      ⟨[], [], true, [], [Ev.beginTx]⟩
      rfl rfl (by decide)
  · exact C6_transaction_scope.2.2 (pure ()) (conn0 ([] : List EpicRow)) rfl rfl

/-- C8 counterexample: the artists name-sort query has no tie-breaking
secondary key, so its output is not deterministic.  With two favourite
artists named Alpha and alpha — equal under the case-insensitive
collation — both fetch orders satisfy the query's ORDER BY, and the two
orders rewrite the positions differently, so re-sorting does not
determine the resulting table. -/
theorem C8_counterexample :
    validNameOrder [⟨1, "Alpha"⟩, ⟨2, "alpha"⟩]
      [⟨"u", 1, none, 1⟩, ⟨"u", 2, none, 2⟩] "u" [1, 2] ∧
    validNameOrder [⟨1, "Alpha"⟩, ⟨2, "alpha"⟩]
      [⟨"u", 1, none, 1⟩, ⟨"u", 2, none, 2⟩] "u" [2, 1] ∧
    (sortartistsName "u" [1, 2]
        (conn0 [⟨"u", 1, none, 1⟩, ⟨"u", 2, none, 2⟩])).2.committed
      ≠ (sortartistsName "u" [2, 1]
        (conn0 [⟨"u", 1, none, 1⟩, ⟨"u", 2, none, 2⟩])).2.committed :=
  ⟨by decide, by decide, by decide⟩

/-- The artists table of the reorder-determinism scenario: Banana,
apple and Cherry. -/
def c8artists : List ArtistRow := [⟨1, "Banana"⟩, ⟨2, "apple"⟩, ⟨3, "Cherry"⟩]

/-- The favourite rows of the reorder-determinism scenario: the user
favours all three artists, initially in id order. -/
def c8favs : List FavRow := [⟨"u", 1, none, 1⟩, ⟨"u", 2, none, 2⟩, ⟨"u", 3, none, 3⟩]

/-- C8 amended: re-sorting by name rewrites every entry's position to
its 1-based rank under the case-insensitive name ordering, and when the
case-insensitive names are pairwise distinct the fetched ordering — and
hence the result — is uniquely determined: over entries named Banana,
apple, Cherry, every ordering the query may return equals
`[apple, Banana, Cherry]` and the rewrite yields positions apple = 1,
Banana = 2, Cherry = 3.  (For names that are equal case-insensitively
the query has no tie-breaking key and the result is not determined, as
shown separately.) -/
theorem C8_sort_by_name :
    ∀ (order : List Nat),
      validNameOrder c8artists c8favs "u" order →
      order = [2, 1, 3] ∧
      (sortartistsName "u" order (conn0 c8favs)).2.committed
        = [⟨"u", 1, none, 2⟩, ⟨"u", 2, none, 1⟩, ⟨"u", 3, none, 3⟩] := by
  intro order hv
  obtain ⟨hperm, hsorted⟩ := hv
  have hmap : ((c8favs.filter fun r => r.user == "u").map (fun r => r.artistId))
      = [1, 2, 3] := by decide
  rw [hmap] at hperm
  have hlen : order.length = 3 := hperm.length_eq
  rcases order with _ | ⟨a, _ | ⟨b, _ | ⟨c, _ | ⟨d, rest⟩⟩⟩⟩ <;> simp at hlen
  have ha : a ∈ ([1, 2, 3] : List Nat) := hperm.subset (by simp)
  have hb : b ∈ ([1, 2, 3] : List Nat) := hperm.subset (by simp)
  have hc : c ∈ ([1, 2, 3] : List Nat) := hperm.subset (by simp)
  fin_cases ha <;> fin_cases hb <;> fin_cases hc <;>
    first
      | exact ⟨rfl, by decide⟩
      | (exfalso; revert hperm; decide)
      | (exfalso; revert hsorted; decide)

/-- C8 witness: `C8_sort_by_name` applied to the one valid fetched
ordering apple, Banana, Cherry: apple's row receives position 1,
Banana's position 2, Cherry's position 3. -/
theorem C8_witness :
    (sortartistsName "u" [2, 1, 3] (conn0 c8favs)).2.committed
      = [⟨"u", 1, none, 2⟩, ⟨"u", 2, none, 1⟩, ⟨"u", 3, none, 3⟩] :=
  (C8_sort_by_name [2, 1, 3] (by decide)).2

/-- C9: reads and single-statement writes performed while no explicit
transaction is open leave the connection with no open transaction behind
(whether the statement succeeds or fails), so a subsequent explicit
BEGIN — when not itself hit by an injected failure — always succeeds. -/
theorem C9_no_open_transaction {ρ β : Type} :
    (∀ (q : List ρ → β) (c : Conn ρ), c.inTx = false →
      (fetch_one q c).2.inTx = false) ∧
    (∀ (q : List ρ → β) (c : Conn ρ), c.inTx = false →
      (fetch_all q c).2.inTx = false) ∧
    (∀ (f : List ρ → List ρ) (c : Conn ρ), c.inTx = false →
      (execute f c).2.inTx = false) ∧
    (∀ (c : Conn ρ), c.inTx = false → (popSch c.schedule).1 = false →
      (rawBegin (ρ := ρ) c).1 = Except.ok ()) := by
  refine ⟨?_, ?_, ?_, ?_⟩
  · intro q c hTx
    obtain ⟨com, cur, tx, sch, tr⟩ := c
    simp only at hTx
    subst hTx
    rcases sch with _ | ⟨_ | _, rest⟩ <;>
      simp [fetch_one, rawRead, popSch, commitS]
  · intro q c hTx
    obtain ⟨com, cur, tx, sch, tr⟩ := c
    simp only at hTx
    subst hTx
    rcases sch with _ | ⟨_ | _, rest⟩ <;>
      simp [fetch_all, rawRead, popSch, commitS]
  · intro f c hTx
    obtain ⟨com, cur, tx, sch, tr⟩ := c
    simp only at hTx
    subst hTx
    rcases sch with _ | ⟨_ | _, rest⟩ <;>
      simp [execute, rawWrite, popSch, commitS]
  · intro c hTx hp
    rw [rawBegin_ok c hTx hp]

/-- C9 witness: after a bare read, a bare list read and a bare write on
an idle connection no transaction is left open, and BEGIN succeeds on
the idle result. -/
theorem C9_witness :
    (fetch_one (fun t => t.length) (conn0 ([⟨"u", "a", 1, 1⟩] : List EpicRow))).2.inTx = false ∧
    (fetch_all (fun t => t) (conn0 ([⟨"u", "a", 1, 1⟩] : List EpicRow))).2.inTx = false ∧
    (execute (fun t => t ++ [⟨"u", "b", 1, 2⟩]) (conn0 ([⟨"u", "a", 1, 1⟩] : List EpicRow))).2.inTx
      = false ∧
    (rawBegin (ρ := EpicRow) (conn0 ([⟨"u", "a", 1, 1⟩] : List EpicRow))).1 = Except.ok () :=
  ⟨(C9_no_open_transaction (ρ := EpicRow) (β := Nat)).1 (fun t => t.length)
     (conn0 ([⟨"u", "a", 1, 1⟩] : List EpicRow)) rfl,
   (C9_no_open_transaction (ρ := EpicRow) (β := List EpicRow)).2.1 (fun t => t)
     (conn0 ([⟨"u", "a", 1, 1⟩] : List EpicRow)) rfl,
   (C9_no_open_transaction (ρ := EpicRow) (β := Nat)).2.2.1 (fun t => t ++ [⟨"u", "b", 1, 2⟩])
     (conn0 ([⟨"u", "a", 1, 1⟩] : List EpicRow)) rfl,
   (C9_no_open_transaction (ρ := EpicRow) (β := Nat)).2.2.2
     (conn0 ([⟨"u", "a", 1, 1⟩] : List EpicRow)) rfl rfl⟩

/-- At most one owned-items entry per user and track: no two rows of the
table share both the user id and the track id. -/
def noDupTracks (t : List EpicRow) : Prop :=
  t.Pairwise (fun a b => a.user = b.user → a.track ≠ b.track)

instance (t : List EpicRow) : Decidable (noDupTracks t) := by
  unfold noDupTracks; exact inferInstance

/-- C10: no duplicate owned tracks.  On an idle connection: (1) when the
user already owns an entry for the track — whatever serial number was
supplied — `addepic` reports already-owned and both the committed and
working tables are exactly the pre-operation table: no insert and no
position shift; (2) the at-most-one-entry-per-user-and-track property is
preserved by `addepic` (the only command that inserts into the
owned-items table): in the duplicate branch nothing changes, and in the
insert branch the bump changes no keys and the appended entry's track is
absent from the user's rows. -/
theorem C10_addepic_no_duplicate :
    ∀ (c : Conn EpicRow) (u tr : String) (n : Int),
      c.inTx = false → c.schedule = [] → c.current = c.committed →
      (∀ r, (c.current.find? fun s => s.user == u && s.track == tr) = some r →
        (addepicDb u tr n c).1 = Except.ok AddOut.alreadyOwned ∧
        (addepicDb u tr n c).2.committed = c.committed ∧
        (addepicDb u tr n c).2.current = c.committed) ∧
      (noDupTracks c.current → noDupTracks (addepicDb u tr n c).2.committed) := by
  intro c u tr n hTx hSch hCur
  have hfu : ∀ s : EpicRow,
      ((if s.user = u then { s with pos := s.pos + 1 } else s) : EpicRow).user = s.user := by
    intro s; by_cases h : s.user = u <;> simp [h]
  have hft : ∀ s : EpicRow,
      ((if s.user = u then { s with pos := s.pos + 1 } else s) : EpicRow).track = s.track := by
    intro s; by_cases h : s.user = u <;> simp [h]
  constructor
  · intro r hFind
    unfold addepicDb
    rw [run_bind, fetch_one_idle _ c hTx hSch]
    simp only [hFind]
    exact ⟨rfl, hCur ▸ rfl, hCur ▸ rfl⟩
  · intro hnd
    rcases hf : (c.current.find? fun s => s.user == u && s.track == tr) with _ | r
    · unfold addepicDb
      rw [run_bind, fetch_one_idle _ c hTx hSch]
      simp only [hf]
      rw [run_bind, get_next_position, run_bind, execute_idle _ _ rfl rfl]
      simp only [run_pure]
      rw [run_bind, execute_idle _ _ rfl rfl]
      show noDupTracks ((c.current.map _) ++ [⟨u, tr, n, 1⟩])
      unfold noDupTracks
      rw [List.pairwise_append]
      refine ⟨?_, List.pairwise_singleton _ _, ?_⟩
      · rw [List.pairwise_map]
        apply hnd.imp
        intro a b hab
        rw [hfu a, hfu b, hft a, hft b]
        exact hab
      · intro a hamem b hbmem
        simp only [List.mem_singleton] at hbmem
        subst hbmem
        obtain ⟨s, hs, rfl⟩ := List.mem_map.mp hamem
        rw [hfu s, hft s]
        have := List.find?_eq_none.mp hf s hs
        simp only [Bool.and_eq_true, beq_iff_eq, not_and] at this
        intro h1 h2
        exact absurd h2 (this h1)
    · unfold addepicDb
      rw [run_bind, fetch_one_idle _ c hTx hSch]
      simp only [hf]
      show noDupTracks c.current
      exact hnd

/-- C10 witness: a user owning track a at position 1 invokes `addepic`
for track a with a different serial number 5: the command reports
already-owned and the table is unchanged; the no-duplicate property is
preserved both here and when inserting the fresh track b. -/
theorem C10_witness :
    (addepicDb "u" "a" 5 (conn0 [⟨"u", "a", 1, 1⟩])).1
      = Except.ok AddOut.alreadyOwned ∧
    (addepicDb "u" "a" 5 (conn0 [⟨"u", "a", 1, 1⟩])).2.committed
      = [⟨"u", "a", 1, 1⟩] ∧
    noDupTracks (addepicDb "u" "a" 5 (conn0 [⟨"u", "a", 1, 1⟩])).2.committed ∧
    noDupTracks (addepicDb "u" "b" 5 (conn0 [⟨"u", "a", 1, 1⟩])).2.committed := by
  have hdup := (C10_addepic_no_duplicate (conn0 [⟨"u", "a", 1, 1⟩]) "u" "a" 5
    rfl rfl rfl).1 ⟨"u", "a", 1, 1⟩ (by decide)
  have hnd1 := (C10_addepic_no_duplicate (conn0 [⟨"u", "a", 1, 1⟩]) "u" "a" 5
    rfl rfl rfl).2 (by decide)
  have hnd2 := (C10_addepic_no_duplicate (conn0 [⟨"u", "a", 1, 1⟩]) "u" "b" 5
    rfl rfl rfl).2 (by decide)
  exact ⟨hdup.1, hdup.2.1, hnd1, hnd2⟩

end Soundmap
